import Mathlib

/-!
# Dense-matrix linear algebra dispatch: `M2/Macaulay2/e/mat-linalg.hpp`

A shallow embedding of namespace `MatrixOppies`.

* A C++ function that may `throw exc::engine_error` returns `Except exc.engine_error _`;
  the value it returns on success is paired with the output arguments it has written.
* `DMat<R>` with `r` rows and `c` columns is a `Matrix (Fin r) (Fin c) R`; the accessors
  `fmpz_mat()`, `nmod_mat()`, `fmpq_mat()` hand that same matrix to the FLINT kernel.
* FLINT kernels whose result is a function of their arguments (`*_mat_mul`, `*_mat_add`,
  `*_mat_sub`) are definitions; kernels whose contract leaves a choice (`fmpz_mat_inv`,
  `fmpz_mat_solve`, `fmpz_mat_nullspace`, `fmpz_mat_rank`, ...) are arguments of the
  embedded function, and each theorem states the kernel contract it relies on as a
  hypothesis at the call the code makes.
* A function that calls itself takes a `fuel` argument bounding the depth of nested calls
  and returns `none` when that depth is exhausted.
-/

namespace exc

/-- The exception class `exc::engine_error`; `what` is the message it was built with. -/
structure engine_error where
  what : String
  deriving DecidableEq, Repr

end exc

/-- The dense matrix `DMat<R>` with `numRows() = r` and `numColumns() = c`. -/
abbrev DMat (R : Type) (r c : ℕ) : Type := Matrix (Fin r) (Fin c) R

/-- Line 22: `typedef DMat<M2::ARingZZ> DMatZZ`. -/
abbrev DMatZZ (r c : ℕ) : Type := DMat ℤ r c

/-- Line 23: `typedef DMat<M2::ARingQQFlint> DMatQQFlint`. -/
abbrev DMatQQFlint (r c : ℕ) : Type := DMat ℚ r c

/-- Line 24: `typedef DMat<M2::ARingZZpFlint> DMatZZpFlint`, over the integers modulo `p`. -/
abbrev DMatZZpFlint (p r c : ℕ) : Type := DMat (ZMod p) r c

/-- The type `M2_arrayintOrNull`: an integer sequence, or null. -/
abbrev M2_arrayintOrNull : Type := Option (List ℤ)

namespace MatrixOppies

/-! ## The generic templates (lines 45-265) -/

/-- Lines 45-50. -/
def rank {Mat : Type} (_A : Mat) : Except exc.engine_error ℕ :=
  throw ⟨"'rank' not implemented for this kind of matrix over this ring"⟩

/-- Lines 56-61. -/
def determinant {Mat Elem : Type} (_A : Mat) (_result_det : Elem) :
    Except exc.engine_error Elem :=
  throw ⟨"'determinant' not implemented for this kind of matrix over this ring"⟩

/-- Lines 74-79. -/
def inverse {Mat : Type} (_A : Mat) (_result_inv : Mat) :
    Except exc.engine_error (Bool × Mat) :=
  throw ⟨"'invert' not implemented for this kind of matrix over this ring"⟩

/-- Lines 90-96. -/
def mult {Mat : Type} (_A _B : Mat) (_result_product : Mat) : Except exc.engine_error Mat :=
  throw ⟨"'mult matrices' not implemented for this kind of matrix over this ring"⟩

/-- Lines 110-116. -/
def nullSpace {Mat : Type} (_A : Mat) (_right_side : Bool) (_result_nullspace : Mat) :
    Except exc.engine_error (ℕ × Mat) :=
  throw ⟨"'nullSpace' not implemented for this kind of matrix over this ring"⟩

/-- Lines 130-139, the five-argument template. -/
def solveLinear {Mat : Type} (_A _B : Mat) (_right_side : Bool) (_X : Mat)
    (_declare_A_is_invertible : Bool) : Except exc.engine_error (Bool × Mat) :=
  throw ⟨"'solveLinear' not implemented for this kind of matrix over this ring"⟩

/-- Lines 142-148, the three-argument template `solveLinear(A,B,X)`: it forwards to the
five-argument `solveLinear` that overload resolution selects for `Mat`, here `five`. -/
def solveLinear3 {Mat Res : Type} (five : Mat → Mat → Bool → Mat → Bool → Res)
    (A B X : Mat) : Res :=
  five A B true X false

/-- Lines 162-167. -/
def rankProfile {Mat : Type} (_A : Mat) (_row_profile : Bool) :
    Except exc.engine_error M2_arrayintOrNull :=
  throw ⟨"'rankProfile' not implemented for this kind of matrix over this ring"⟩

/-- Lines 173-180. -/
def addMultipleTo {Mat : Type} (_C _A _B : Mat) : Except exc.engine_error Mat :=
  throw ⟨"'addMultipleTo' not implemented for this kind of matrix over this ring"⟩

/-- Lines 186-193. -/
def subtractMultipleTo {Mat : Type} (_C _A _B : Mat) : Except exc.engine_error Mat :=
  throw ⟨"'subtractMultipleTo' not implemented for this kind of matrix over this ring"⟩

/-- Lines 195-201. -/
def solve {Mat : Type} (_A _B _X : Mat) : Except exc.engine_error (Bool × Mat) :=
  throw ⟨"'solve' not implemented for this kind of matrix over this ring"⟩

/-- Lines 203-208. -/
def nullspaceU {Mat : Type} (_A _X : Mat) : Except exc.engine_error (Bool × Mat) :=
  throw ⟨"'nullspaceU' not implemented for this kind of matrix over this ring"⟩

/-- Lines 210-216. -/
def LU {Mat : Type} (_A _L _U : Mat) : Except exc.engine_error (M2_arrayintOrNull × Mat × Mat) :=
  throw ⟨"'LU' not implemented for this kind of matrix over this ring"⟩

/-- Lines 218-223. -/
def eigenvalues {Mat Mat2 : Type} (_A : Mat) (_eigenvals : Mat2) :
    Except exc.engine_error (Bool × Mat2) :=
  throw ⟨"'eigenvalues' not implemented for this kind of matrix over this ring"⟩

/-- Lines 225-230. -/
def eigenvaluesHermitian {Mat Mat2 : Type} (_A : Mat) (_eigenvals : Mat2) :
    Except exc.engine_error (Bool × Mat2) :=
  throw ⟨"'eigenvalues' not implemented for this kind of matrix over this ring"⟩

/-- Lines 232-238. -/
def eigenvectors {Mat Mat2 Mat3 : Type} (_A : Mat) (_eigenvals : Mat2) (_eigenvecs : Mat3) :
    Except exc.engine_error (Bool × Mat2 × Mat3) :=
  throw ⟨"'eigenvectors' not implemented for this kind of matrix over this ring"⟩

/-- Lines 240-246. -/
def eigenvectorsHermitian {Mat Mat2 Mat3 : Type} (_A : Mat) (_eigenvals : Mat2)
    (_eigenvecs : Mat3) : Except exc.engine_error (Bool × Mat2 × Mat3) :=
  throw ⟨"'eigenvectors' not implemented for this kind of matrix over this ring"⟩

/-- Lines 248-255. -/
def leastSquares {Mat : Type} (_A _B _X : Mat) (_assume_full_rank : Bool) :
    Except exc.engine_error (Bool × Mat) :=
  throw ⟨"'leastSquares' not implemented for this kind of matrix over this ring"⟩

/-- Lines 257-265. -/
def SVD {Mat Mat2 : Type} (_A : Mat) (_Sigma : Mat2) (_U _Vt : Mat) (_strategy : ℤ) :
    Except exc.engine_error (Bool × Mat2 × Mat × Mat) :=
  throw ⟨"'SVD' not implemented for this kind of matrix over this ring"⟩

/-! ### Talking about all generic templates at once -/

/-- The eighteen operation names of the generic contract. -/
inductive Op where
  | rank | determinant | inverse | mult | nullSpace | solveLinear | rankProfile
  | addMultipleTo | subtractMultipleTo | solve | nullspaceU | LU
  | eigenvalues | eigenvaluesHermitian | eigenvectors | eigenvectorsHermitian
  | leastSquares | SVD
  deriving DecidableEq, Repr

/-- The identifier under which the source declares the operation. -/
def Op.name : Op → String
  | .rank => "rank"
  | .determinant => "determinant"
  | .inverse => "inverse"
  | .mult => "mult"
  | .nullSpace => "nullSpace"
  | .solveLinear => "solveLinear"
  | .rankProfile => "rankProfile"
  | .addMultipleTo => "addMultipleTo"
  | .subtractMultipleTo => "subtractMultipleTo"
  | .solve => "solve"
  | .nullspaceU => "nullspaceU"
  | .LU => "LU"
  | .eigenvalues => "eigenvalues"
  | .eigenvaluesHermitian => "eigenvaluesHermitian"
  | .eigenvectors => "eigenvectors"
  | .eigenvectorsHermitian => "eigenvectorsHermitian"
  | .leastSquares => "leastSquares"
  | .SVD => "SVD"

/-- A call of one generic template together with all of its arguments. -/
inductive Call (Mat Mat2 Mat3 Elem : Type) where
  | rank (A : Mat)
  | determinant (A : Mat) (result_det : Elem)
  | inverse (A result_inv : Mat)
  | mult (A B result_product : Mat)
  | nullSpace (A : Mat) (right_side : Bool) (result_nullspace : Mat)
  | solveLinear (A B : Mat) (right_side : Bool) (X : Mat) (declare_A_is_invertible : Bool)
  | rankProfile (A : Mat) (row_profile : Bool)
  | addMultipleTo (C A B : Mat)
  | subtractMultipleTo (C A B : Mat)
  | solve (A B X : Mat)
  | nullspaceU (A X : Mat)
  | LU (A L U : Mat)
  | eigenvalues (A : Mat) (eigenvals : Mat2)
  | eigenvaluesHermitian (A : Mat) (eigenvals : Mat2)
  | eigenvectors (A : Mat) (eigenvals : Mat2) (eigenvecs : Mat3)
  | eigenvectorsHermitian (A : Mat) (eigenvals : Mat2) (eigenvecs : Mat3)
  | leastSquares (A B X : Mat) (assume_full_rank : Bool)
  | SVD (A : Mat) (Sigma : Mat2) (U Vt : Mat) (strategy : ℤ)

/-- The operation a call invokes. -/
def Call.op {Mat Mat2 Mat3 Elem : Type} : Call Mat Mat2 Mat3 Elem → Op
  | .rank .. => .rank
  | .determinant .. => .determinant
  | .inverse .. => .inverse
  | .mult .. => .mult
  | .nullSpace .. => .nullSpace
  | .solveLinear .. => .solveLinear
  | .rankProfile .. => .rankProfile
  | .addMultipleTo .. => .addMultipleTo
  | .subtractMultipleTo .. => .subtractMultipleTo
  | .solve .. => .solve
  | .nullspaceU .. => .nullspaceU
  | .LU .. => .LU
  | .eigenvalues .. => .eigenvalues
  | .eigenvaluesHermitian .. => .eigenvaluesHermitian
  | .eigenvectors .. => .eigenvectors
  | .eigenvectorsHermitian .. => .eigenvectorsHermitian
  | .leastSquares .. => .leastSquares
  | .SVD .. => .SVD

/-- The exception a computation ended with, if it ended with one. -/
def thrown {ε α : Type} : Except ε α → Option ε
  | .error e => some e
  | .ok _ => none

/-- Runs the generic template a call names on the call's arguments and reports the
exception it ends with (`none` when it returns normally). -/
def Call.run {Mat Mat2 Mat3 Elem : Type} : Call Mat Mat2 Mat3 Elem → Option exc.engine_error
  | .rank A => thrown (MatrixOppies.rank A)
  | .determinant A d => thrown (MatrixOppies.determinant A d)
  | .inverse A R => thrown (MatrixOppies.inverse A R)
  | .mult A B P => thrown (MatrixOppies.mult A B P)
  | .nullSpace A s N => thrown (MatrixOppies.nullSpace A s N)
  | .solveLinear A B s X h => thrown (MatrixOppies.solveLinear A B s X h)
  | .rankProfile A s => thrown (MatrixOppies.rankProfile A s)
  | .addMultipleTo C A B => thrown (MatrixOppies.addMultipleTo C A B)
  | .subtractMultipleTo C A B => thrown (MatrixOppies.subtractMultipleTo C A B)
  | .solve A B X => thrown (MatrixOppies.solve A B X)
  | .nullspaceU A X => thrown (MatrixOppies.nullspaceU A X)
  | .LU A L U => thrown (MatrixOppies.LU A L U)
  | .eigenvalues A E => thrown (MatrixOppies.eigenvalues A E)
  | .eigenvaluesHermitian A E => thrown (MatrixOppies.eigenvaluesHermitian A E)
  | .eigenvectors A E V => thrown (MatrixOppies.eigenvectors A E V)
  | .eigenvectorsHermitian A E V => thrown (MatrixOppies.eigenvectorsHermitian A E V)
  | .leastSquares A B X f => thrown (MatrixOppies.leastSquares A B X f)
  | .SVD A S U Vt s => thrown (MatrixOppies.SVD A S U Vt s)

/-- The single quote character that delimits the name inside an error message. -/
def quoteChar : Char := Char.ofNat 39

/-- The name an error message carries: the text between its first two single quotes. -/
def carriedName (msg : String) : String :=
  String.mk (((msg.data.dropWhile (fun c => c != quoteChar)).drop 1).takeWhile
    (fun c => c != quoteChar))

/-- The text of the unsupported-operation error for the name `label`. -/
def notImplemented (label : String) : String :=
  "'" ++ label ++ "' not implemented for this kind of matrix over this ring"

/-- The name a call's exception carries (empty when the call does not throw). -/
def Call.carried {Mat Mat2 Mat3 Elem : Type} (c : Call Mat Mat2 Mat3 Elem) : String :=
  match c.run with
  | some e => carriedName e.what
  | none => ""

end MatrixOppies

/-! ## FLINT kernels

The kernels live outside the repository.  Those whose output is determined by their
arguments are defined here by their documented contract; the others are arguments of the
embedded functions and only their result records are declared. -/

/-- `fmpz_is_pm1(den)`: whether `den` is `1` or `-1`. -/
def fmpz_is_pm1 (den : ℤ) : Bool := den == 1 || den == -1

/-- `fmpz_mat_mul(C, A, B)` sets `C` to the product `A * B`. -/
def fmpz_mat_mul {r k c : ℕ} (A : DMatZZ r k) (B : DMatZZ k c) : DMatZZ r c := A * B

/-- `fmpz_mat_add(C, A, B)` sets `C` to `A + B`. -/
def fmpz_mat_add {r c : ℕ} (A B : DMatZZ r c) : DMatZZ r c := A + B

/-- `fmpz_mat_sub(C, A, B)` sets `C` to `A - B`. -/
def fmpz_mat_sub {r c : ℕ} (A B : DMatZZ r c) : DMatZZ r c := A - B

/-- `nmod_mat_mul(C, A, B)` sets `C` to the product `A * B` modulo `p`. -/
def nmod_mat_mul {p r k c : ℕ} (A : DMatZZpFlint p r k) (B : DMatZZpFlint p k c) :
    DMatZZpFlint p r c := A * B

/-- `nmod_mat_add(C, A, B)` sets `C` to `A + B` modulo `p`. -/
def nmod_mat_add {p r c : ℕ} (A B : DMatZZpFlint p r c) : DMatZZpFlint p r c := A + B

/-- `nmod_mat_sub(C, A, B)` sets `C` to `A - B` modulo `p`. -/
def nmod_mat_sub {p r c : ℕ} (A B : DMatZZpFlint p r c) : DMatZZpFlint p r c := A - B

/-- `fmpq_mat_mul(C, A, B)` sets `C` to the product `A * B`. -/
def fmpq_mat_mul {r k c : ℕ} (A : DMatQQFlint r k) (B : DMatQQFlint k c) : DMatQQFlint r c :=
  A * B

/-- `fmpq_mat_add(C, A, B)` sets `C` to `A + B`. -/
def fmpq_mat_add {r c : ℕ} (A B : DMatQQFlint r c) : DMatQQFlint r c := A + B

/-- `fmpq_mat_sub(C, A, B)` sets `C` to `A - B`. -/
def fmpq_mat_sub {r c : ℕ} (A B : DMatQQFlint r c) : DMatQQFlint r c := A - B

/-- What a call `fmpz_mat_inv(B, den, A)` leaves: its return value and its two outputs. -/
structure fmpz_mat_inv_result (r c : ℕ) where
  flag : Bool
  B : DMatZZ r c
  den : ℤ

/-- What a call `fmpz_mat_solve(X, den, M, N)` leaves: its return value and its two
outputs. -/
structure fmpz_mat_solve_result (r c : ℕ) where
  flag : Bool
  X : DMatZZ r c
  den : ℤ

/-- What a call `fmpz_mat_nullspace(B, A)` or `nmod_mat_nullspace(B, A)` leaves: the `long`
it returns and the matrix it has written. -/
structure mat_nullspace_result (R : Type) (r c : ℕ) where
  value : ℤ
  B : DMat R r c

/-- What a call `nmod_mat_solve(X, M, N)` leaves: its return value and its output. -/
structure nmod_mat_solve_result (p r c : ℕ) where
  flag : Bool
  X : DMatZZpFlint p r c

/-- The kernel contract of `fmpz_mat_inv` at the square matrix `A`: the flag is true iff
`A` is nonsingular, and then `A * B = den * I`. -/
def fmpz_mat_inv_spec {n : ℕ} (A : DMatZZ n n) (k : fmpz_mat_inv_result n n) : Prop :=
  (k.flag = true ↔ A.det ≠ 0) ∧ (k.flag = true → A * k.B = k.den • (1 : DMatZZ n n))

/-- The kernel contract of `fmpz_mat_solve(X, den, M, N)`: the flag is true iff `M` is
nonsingular, and then `M * X = den * N`. -/
def fmpz_mat_solve_spec {n c : ℕ} (M : DMatZZ n n) (N : DMatZZ n c)
    (k : fmpz_mat_solve_result n c) : Prop :=
  (k.flag = true ↔ M.det ≠ 0) ∧ (k.flag = true → M * k.X = k.den • N)

/-- The kernel `fmpz_mat_inv` as FLINT computes it in dimension at most two: the
denominator is the determinant and `B` the adjugate.  It meets `fmpz_mat_inv_spec` in
every dimension. -/
def fmpz_mat_inv_adjugate {n : ℕ} (A : DMatZZ n n) : fmpz_mat_inv_result n n :=
  ⟨decide (A.det ≠ 0), A.adjugate, A.det⟩

/-- The kernel `fmpz_mat_solve` by Cramer's rule, which FLINT uses in small dimension:
the denominator is `det M` and `X = adj(M) * N`.  It meets `fmpz_mat_solve_spec` in every
dimension. -/
def fmpz_mat_solve_cramer {n c : ℕ} (M : DMatZZ n n) (N : DMatZZ n c) :
    fmpz_mat_solve_result n c :=
  ⟨decide (M.det ≠ 0), M.adjugate * N, M.det⟩

/-- The subtraction `A.numColumns() - rank` of a `long` from a `size_t`, which C++ carries
out in 64-bit unsigned arithmetic. -/
def size_t_sub_long (numColumns : ℕ) (rank : ℤ) : ℕ :=
  Int.toNat (((numColumns : ℤ) - rank) % 2 ^ 64)

namespace MatrixOppies

/-! ## Strategies for `DMatZZ` (lines 312-407) -/

namespace ZZ

/-- Lines 312-315 (the line printed to `std::cout` is not modelled). -/
def rank {r c : ℕ} (fmpz_mat_rank : DMatZZ r c → ℕ) (A : DMatZZ r c) : ℕ :=
  fmpz_mat_rank A

/-- Lines 323-333.  Returns `result` together with the contents of `result_inv`. -/
def inverse {r c r' c' : ℕ} (fmpz_mat_inv : DMatZZ r c → fmpz_mat_inv_result r' c')
    (A : DMatZZ r c) : Bool × DMatZZ r' c' :=
  let k := fmpz_mat_inv A
  let result := k.flag
  let result := if !fmpz_is_pm1 k.den then false else result
  (result, k.B)

/-- Lines 335-342.  Returns the contents of `result_product`. -/
def mult {r k c : ℕ} (A : DMatZZ r k) (B : DMatZZ k c) : DMatZZ r c :=
  fmpz_mat_mul A B

/-- Lines 344-349, the two-argument `nullSpace(A, result_nullspace)`. -/
def nullSpace2 {r c rn cn : ℕ} (fmpz_mat_nullspace : DMatZZ r c → mat_nullspace_result ℤ rn cn)
    (A : DMatZZ r c) : ℕ × DMatZZ rn cn :=
  let k := fmpz_mat_nullspace A
  let rank := k.value
  (size_t_sub_long c rank, k.B)

/-- Lines 351-358, `nullSpace(A, right_side, result_nullspace)`. -/
def nullSpace {r c rn cn : ℕ} (fmpz_mat_nullspace : DMatZZ r c → mat_nullspace_result ℤ rn cn)
    (A : DMatZZ r c) (right_side : Bool) : Except exc.engine_error (ℕ × DMatZZ rn cn) :=
  if !right_side then
    throw ⟨"'nullSpace' not implemented for this kind of matrix over this ring"⟩
  else
    pure (nullSpace2 fmpz_mat_nullspace A)

/-- Lines 360-371, the three-argument `solveLinear(A, B, X)`: the kernel is called as
`fmpz_mat_solve(X, den, B, A)`. -/
def solveLinear3 {ra ca rb cb rx cx : ℕ}
    (fmpz_mat_solve : DMatZZ rb cb → DMatZZ ra ca → fmpz_mat_solve_result rx cx)
    (A : DMatZZ ra ca) (B : DMatZZ rb cb) : Bool × DMatZZ rx cx :=
  let k := fmpz_mat_solve B A
  let result := k.flag
  let result := if !fmpz_is_pm1 k.den then false else result
  (result, k.X)

/-- Lines 373-383, `solveLinear(A, B, right_side, X, declare_A_is_invertible)`. -/
def solveLinear {ra ca rb cb rx cx : ℕ}
    (fmpz_mat_solve : DMatZZ rb cb → DMatZZ ra ca → fmpz_mat_solve_result rx cx)
    (A : DMatZZ ra ca) (B : DMatZZ rb cb) (right_side declare_A_is_invertible : Bool) :
    Except exc.engine_error (Bool × DMatZZ rx cx) :=
  if !right_side || !declare_A_is_invertible then
    throw ⟨"'solveLinear' not implemented for this kind of matrix over this ring"⟩
  else
    pure (solveLinear3 fmpz_mat_solve A B)

/-- Lines 391-398.  Returns the new contents of `C`. -/
def addMultipleTo {r k c : ℕ} (C : DMatZZ r c) (A : DMatZZ r k) (B : DMatZZ k c) :
    DMatZZ r c :=
  let D := fmpz_mat_mul A B
  fmpz_mat_add C D

/-- Lines 400-407.  Returns the new contents of `C`. -/
def subtractMultipleTo {r k c : ℕ} (C : DMatZZ r c) (A : DMatZZ r k) (B : DMatZZ k c) :
    DMatZZ r c :=
  let D := fmpz_mat_mul A B
  fmpz_mat_sub C D

end ZZ

/-! ## Strategies for `DMatZZpFlint` (lines 413-505) -/

namespace ZZpFlint

/-- Lines 413-417 (the line printed to `std::cout` is not modelled). -/
def rank {p r c : ℕ} (nmod_mat_rank : DMatZZpFlint p r c → ℕ) (A : DMatZZpFlint p r c) : ℕ :=
  nmod_mat_rank A

/-- Lines 432-441: the kernel is called as `nmod_mat_mul(result_product, B1, A1)`.
Returns the contents of `result_product`. -/
def mult {p r k c : ℕ} (A : DMatZZpFlint p k c) (B : DMatZZpFlint p r k) :
    DMatZZpFlint p r c :=
  nmod_mat_mul B A

/-- Lines 443-449, the two-argument `nullSpace(A, result_nullspace)`. -/
def nullSpace2 {p r c rn cn : ℕ}
    (nmod_mat_nullspace : DMatZZpFlint p r c → mat_nullspace_result (ZMod p) rn cn)
    (A : DMatZZpFlint p r c) : ℕ × DMatZZpFlint p rn cn :=
  let k := nmod_mat_nullspace A
  let rank := k.value
  (size_t_sub_long c rank, k.B)

/-- Lines 451-459, `nullSpace(A, right_side, result_nullspace)`.  Its last statement is the
call `nullSpace(A, true, result_nullspace)`, which overload resolution binds to this same
three-argument function.  `fuel` bounds the depth of nested calls; `none` means that the
call has not returned within that depth. -/
def nullSpace {p r c rn cn : ℕ} :
    ℕ → DMatZZpFlint p r c → Bool → DMatZZpFlint p rn cn →
      Option (Except exc.engine_error (ℕ × DMatZZpFlint p rn cn))
  | 0, _, _, _ => none
  | fuel + 1, A, right_side, result_nullspace =>
    if !right_side then
      some (throw
        ⟨"'nullSpace' for left-side not implemented for this kind of matrix over this ring"⟩)
    else
      nullSpace fuel A true result_nullspace

/-- Lines 461-468, the three-argument `solveLinear(A, B, X)`: the kernel is called as
`nmod_mat_solve(X, B1, A1)`. -/
def solveLinear3 {p ra ca rb cb rx cx : ℕ}
    (nmod_mat_solve : DMatZZpFlint p rb cb → DMatZZpFlint p ra ca → nmod_mat_solve_result p rx cx)
    (A : DMatZZpFlint p ra ca) (B : DMatZZpFlint p rb cb) : Bool × DMatZZpFlint p rx cx :=
  let k := nmod_mat_solve B A
  (k.flag, k.X)

/-- Lines 470-480, `solveLinear(A, B, right_side, X, declare_A_is_invertible)`. -/
def solveLinear {p ra ca rb cb rx cx : ℕ}
    (nmod_mat_solve : DMatZZpFlint p rb cb → DMatZZpFlint p ra ca → nmod_mat_solve_result p rx cx)
    (A : DMatZZpFlint p ra ca) (B : DMatZZpFlint p rb cb)
    (right_side declare_A_is_invertible : Bool) :
    Except exc.engine_error (Bool × DMatZZpFlint p rx cx) :=
  if !right_side || !declare_A_is_invertible then
    throw ⟨"'solveLinear' not implemented for this kind of matrix over this ring"⟩
  else
    pure (solveLinear3 nmod_mat_solve A B)

/-- Lines 489-496.  Returns the new contents of `C`. -/
def addMultipleTo {p r k c : ℕ} (C : DMatZZpFlint p r c) (A : DMatZZpFlint p r k)
    (B : DMatZZpFlint p k c) : DMatZZpFlint p r c :=
  let D := nmod_mat_mul A B
  nmod_mat_add C D

/-- Lines 498-505.  Returns the new contents of `C`. -/
def subtractMultipleTo {p r k c : ℕ} (C : DMatZZpFlint p r c) (A : DMatZZpFlint p r k)
    (B : DMatZZpFlint p k c) : DMatZZpFlint p r c :=
  let D := nmod_mat_mul A B
  nmod_mat_sub C D

end ZZpFlint

/-! ## Strategies for `DMatQQFlint` (lines 511-613) -/

namespace QQFlint

/-- Lines 511-525 (the lines printed to `std::cerr` and the pretty-printed `m1` are not
modelled): `m1` is `A` with denominators cleared row by row, and the result is the integer
kernel's rank of `m1`. -/
def rank {r c : ℕ} (fmpq_mat_get_fmpz_mat_rowwise : DMatQQFlint r c → DMatZZ r c)
    (fmpz_mat_rank : DMatZZ r c → ℕ) (A : DMatQQFlint r c) : ℕ :=
  let m1 := fmpq_mat_get_fmpz_mat_rowwise A
  let rk := fmpz_mat_rank m1
  rk

/-- Lines 539-547.  Returns the contents of `result_product`. -/
def mult {r k c : ℕ} (A : DMatQQFlint r k) (B : DMatQQFlint k c) : DMatQQFlint r c :=
  fmpq_mat_mul A B

/-- Lines 568-577, the three-argument `solveLinear(A, B, X)`: the kernel call is commented
out, `X` is left as it was and `false` is returned. -/
def solveLinear3 {ra ca rb cb rx cx : ℕ} (_A : DMatQQFlint ra ca) (_B : DMatQQFlint rb cb)
    (X : DMatQQFlint rx cx) : Bool × DMatQQFlint rx cx :=
  (false, X)

/-- Lines 578-588, `solveLinear(A, B, right_side, X, declare_A_is_invertible)`. -/
def solveLinear {ra ca rb cb rx cx : ℕ} (A : DMatQQFlint ra ca) (B : DMatQQFlint rb cb)
    (right_side : Bool) (X : DMatQQFlint rx cx) (declare_A_is_invertible : Bool) :
    Except exc.engine_error (Bool × DMatQQFlint rx cx) :=
  if !right_side || !declare_A_is_invertible then
    throw ⟨"'solveLinear' not implemented for this kind of matrix over this ring"⟩
  else
    pure (solveLinear3 A B X)

/-- Lines 597-604.  Returns the new contents of `C`. -/
def addMultipleTo {r k c : ℕ} (C : DMatQQFlint r c) (A : DMatQQFlint r k)
    (B : DMatQQFlint k c) : DMatQQFlint r c :=
  let D := fmpq_mat_mul A B
  fmpq_mat_add C D

/-- Lines 606-613.  Returns the new contents of `C`. -/
def subtractMultipleTo {r k c : ℕ} (C : DMatQQFlint r c) (A : DMatQQFlint r k)
    (B : DMatQQFlint k c) : DMatQQFlint r c :=
  let D := fmpq_mat_mul A B
  fmpq_mat_sub C D

end QQFlint

end MatrixOppies

/-! ## Concrete inputs used below -/

/-- The 1 x 1 integer matrix with entry `a`. -/
def zz1 (a : ℤ) : DMatZZ 1 1 := !![a]

/-- The 1 x 1 rational matrix with entry `a`. -/
def qq1 (a : ℚ) : DMatQQFlint 1 1 := !![a]

/-! ## The kernels `fmpq_mat_get_fmpz_mat_rowwise`, `fmpz_mat_rank`, `fmpz_mat_nullspace` -/

/-- The least common denominator of the entries of row `i` of `A`. -/
def rowDenominator {r c : ℕ} (A : DMatQQFlint r c) (i : Fin r) : ℕ :=
  (List.finRange c).foldr (fun j d => Nat.lcm (A i j).den d) 1

/-- `fmpq_mat_get_fmpz_mat_rowwise(num, NULL, mat)` as FLINT computes it: each row of `num`
is the row of `mat` multiplied by the least common denominator of its entries. -/
def fmpq_mat_get_fmpz_mat_rowwise {r c : ℕ} (A : DMatQQFlint r c) : DMatZZ r c :=
  fun i j => (A i j).num * ((rowDenominator A i / (A i j).den : ℕ) : ℤ)

/-- The kernel contract of `fmpq_mat_get_fmpz_mat_rowwise`: every row of `m1` is the row of
`A` multiplied by a nonzero common denominator of its entries. -/
def fmpq_mat_rowwise_spec {r c : ℕ} (A : DMatQQFlint r c) (m1 : DMatZZ r c) : Prop :=
  ∃ d : Fin r → ℤ, (∀ i, d i ≠ 0) ∧ ∀ i j, (m1 i j : ℚ) = (d i : ℚ) * A i j

/-- The entrywise cast of an integer vector to a rational vector, as a linear map. -/
def castVec (r : ℕ) : (Fin r → ℤ) →ₗ[ℤ] (Fin r → ℚ) :=
  (Algebra.linearMap ℤ ℚ).compLeft (Fin r)

namespace MatrixOppies

/-! ## The `determinant` strategies (lines 317-321, 419-423, 527-531)

Each body is one kernel call on `A` as it comes, of any shape; none tests the shape and none
has a `throw`.  The result type is `Except exc.engine_error _`, as for the generic
`determinant`, so that the outcome of a call can be compared with an error. -/

/-- Lines 317-321, over `DMatZZ`: `fmpz_mat_det(&result_det, A.fmpz_mat())`.  Returns the
contents of `result_det`. -/
def ZZ.determinant {r c : ℕ} (fmpz_mat_det : DMatZZ r c → ℤ) (A : DMatZZ r c) :
    Except exc.engine_error ℤ :=
  pure (fmpz_mat_det A)

/-- Lines 419-423, over `DMatZZpFlint`: `result_det = nmod_mat_det(A.nmod_mat())`.  Returns
the contents of `result_det`. -/
def ZZpFlint.determinant {p r c : ℕ} (nmod_mat_det : DMatZZpFlint p r c → ZMod p)
    (A : DMatZZpFlint p r c) : Except exc.engine_error (ZMod p) :=
  pure (nmod_mat_det A)

/-- Lines 527-531, over `DMatQQFlint`: `fmpq_mat_det(&result_det, A.fmpq_mat())`.  Returns
the contents of `result_det`. -/
def QQFlint.determinant {r c : ℕ} (fmpq_mat_det : DMatQQFlint r c → ℚ)
    (A : DMatQQFlint r c) : Except exc.engine_error ℚ :=
  pure (fmpq_mat_det A)

/-! ## The `SVD` strategies for `DMatRRR` and `DMatCCC` (lines 678-687, 751-760)

The fixed-precision matrix types stay abstract (`DMatRRR`, `DMatCCC` are type arguments):
the strategies only pass matrices on.  The kernels `Lapack::SVD` and
`Lapack::SVD_divide_conquer` are arguments; each returns its flag and the contents it
leaves in `Sigma`, `U`, `Vt`. -/

/-- Lines 678-687, `SVD(A, Sigma, U, Vt, strategy)` over `DMatRRR`. -/
def RRR.SVD {DMatRRR : Type}
    (Lapack_SVD Lapack_SVD_divide_conquer :
      DMatRRR → DMatRRR → DMatRRR → DMatRRR → Bool × DMatRRR × DMatRRR × DMatRRR)
    (A Sigma U Vt : DMatRRR) (strategy : ℤ) : Bool × DMatRRR × DMatRRR × DMatRRR :=
  if strategy == 1 then
    Lapack_SVD_divide_conquer A Sigma U Vt
  else
    Lapack_SVD A Sigma U Vt

/-- Lines 751-760, `SVD(A, Sigma, U, Vt, strategy)` over `DMatCCC`; `Sigma` is real. -/
def CCC.SVD {DMatRRR DMatCCC : Type}
    (Lapack_SVD Lapack_SVD_divide_conquer :
      DMatCCC → DMatRRR → DMatCCC → DMatCCC → Bool × DMatRRR × DMatCCC × DMatCCC)
    (A : DMatCCC) (Sigma : DMatRRR) (U Vt : DMatCCC) (strategy : ℤ) :
    Bool × DMatRRR × DMatCCC × DMatCCC :=
  if strategy == 1 then
    Lapack_SVD_divide_conquer A Sigma U Vt
  else
    Lapack_SVD A Sigma U Vt

/-! ## Fused calls as state transformers

`addMultipleTo(C, A, B)` and `subtractMultipleTo(C, A, B)` take `C` by reference and `A`,
`B` by `const` reference: a call rewrites `C` and leaves `A` and `B` as they are. -/

/-- The three operands of a fused call, as the caller holds them. -/
structure FusedOperands (R : Type) (r k c : ℕ) where
  C : DMat R r c
  A : DMat R r k
  B : DMat R k c

/-- The operands after `addMultipleTo(C, A, B)` over `DMatZZ`. -/
def ZZ.addMultipleTo_call {r k c : ℕ} (s : FusedOperands ℤ r k c) : FusedOperands ℤ r k c :=
  { s with C := ZZ.addMultipleTo s.C s.A s.B }

/-- The operands after `subtractMultipleTo(C, A, B)` over `DMatZZ`. -/
def ZZ.subtractMultipleTo_call {r k c : ℕ} (s : FusedOperands ℤ r k c) :
    FusedOperands ℤ r k c :=
  { s with C := ZZ.subtractMultipleTo s.C s.A s.B }

/-- The operands after `addMultipleTo(C, A, B)` over `DMatZZpFlint`. -/
def ZZpFlint.addMultipleTo_call {p r k c : ℕ} (s : FusedOperands (ZMod p) r k c) :
    FusedOperands (ZMod p) r k c :=
  { s with C := ZZpFlint.addMultipleTo s.C s.A s.B }

/-- The operands after `subtractMultipleTo(C, A, B)` over `DMatZZpFlint`. -/
def ZZpFlint.subtractMultipleTo_call {p r k c : ℕ} (s : FusedOperands (ZMod p) r k c) :
    FusedOperands (ZMod p) r k c :=
  { s with C := ZZpFlint.subtractMultipleTo s.C s.A s.B }

/-- The operands after `addMultipleTo(C, A, B)` over `DMatQQFlint`. -/
def QQFlint.addMultipleTo_call {r k c : ℕ} (s : FusedOperands ℚ r k c) :
    FusedOperands ℚ r k c :=
  { s with C := QQFlint.addMultipleTo s.C s.A s.B }

/-- The operands after `subtractMultipleTo(C, A, B)` over `DMatQQFlint`. -/
def QQFlint.subtractMultipleTo_call {r k c : ℕ} (s : FusedOperands ℚ r k c) :
    FusedOperands ℚ r k c :=
  { s with C := QQFlint.subtractMultipleTo s.C s.A s.B }

end MatrixOppies

/-! # Theorems -/

namespace MatrixOppies

/-! ## Kernel facts shared by several claims -/

theorem fmpz_is_pm1_iff (den : ℤ) : fmpz_is_pm1 den = true ↔ den = 1 ∨ den = -1 := by
  simp [fmpz_is_pm1]

theorem fmpz_mat_inv_adjugate_spec {n : ℕ} (A : DMatZZ n n) :
    fmpz_mat_inv_spec A (fmpz_mat_inv_adjugate A) := by
  refine ⟨by simp [fmpz_mat_inv_adjugate], fun _ => ?_⟩
  simp [fmpz_mat_inv_adjugate, Matrix.mul_adjugate]

theorem fmpz_mat_solve_cramer_spec {n c : ℕ} (M : DMatZZ n n) (N : DMatZZ n c) :
    fmpz_mat_solve_spec M N (fmpz_mat_solve_cramer M N) := by
  refine ⟨by simp [fmpz_mat_solve_cramer], fun _ => ?_⟩
  show M * (M.adjugate * N) = M.det • N
  rw [← Matrix.mul_assoc, Matrix.mul_adjugate, Matrix.smul_mul, Matrix.one_mul]

/-! ## C1 -/

/-- C1 (amended): every call of a generic template, whatever its arguments, ends with the
exception `'<label>' not implemented for this kind of matrix over this ring`.  For the
fourteen operations other than `inverse`, `mult` and the two Hermitian ones, `<label>` is
the operation's own name; for `inverse` it is `invert`, for `mult` it is `mult matrices`. -/
theorem generic_call_unsupported {Mat Mat2 Mat3 Elem : Type} (c : Call Mat Mat2 Mat3 Elem) :
    c.run = some ⟨notImplemented c.carried⟩ ∧
    (c.op ∉ [Op.inverse, Op.mult, Op.eigenvaluesHermitian, Op.eigenvectorsHermitian] →
        c.carried = c.op.name) ∧
    (c.op = Op.inverse → c.carried = "invert") ∧
    (c.op = Op.mult → c.carried = "mult matrices") := by
  cases c <;> refine ⟨rfl, fun h => ?_, fun h => ?_, fun h => ?_⟩ <;>
    first | rfl | cases h | (simp [Call.op] at h)

/-- C1 (counterexample): the generic `inverse` throws a message that carries `invert`, not
`inverse`; and the two different operations `eigenvalues` and `eigenvaluesHermitian` carry
the same name. -/
theorem generic_name_counterexample :
    (Call.inverse () () : Call Unit Unit Unit Unit).run =
        some ⟨"'invert' not implemented for this kind of matrix over this ring"⟩ ∧
    (Call.inverse () () : Call Unit Unit Unit Unit).carried ≠ Op.inverse.name ∧
    (Call.eigenvalues () () : Call Unit Unit Unit Unit).op ≠
        (Call.eigenvaluesHermitian () () : Call Unit Unit Unit Unit).op ∧
    (Call.eigenvalues () () : Call Unit Unit Unit Unit).carried =
        (Call.eigenvaluesHermitian () () : Call Unit Unit Unit Unit).carried := by
  decide

/-! ## C2 -/

/-- C2: if the square integer matrix `A` has no inverse over the integers and the kernel
`fmpz_mat_inv` meets its contract at `A`, then `inverse(A, result_inv)` over `DMatZZ`
returns false. -/
theorem ZZ.inverse_false_of_not_invertible {n : ℕ}
    (fmpz_mat_inv : DMatZZ n n → fmpz_mat_inv_result n n) (A : DMatZZ n n)
    (hk : fmpz_mat_inv_spec A (fmpz_mat_inv A))
    (hA : ¬ ∃ B : DMatZZ n n, A * B = 1) :
    (ZZ.inverse fmpz_mat_inv A).1 = false := by
  unfold ZZ.inverse
  by_cases hpm : fmpz_is_pm1 (fmpz_mat_inv A).den = true
  · have hflag : (fmpz_mat_inv A).flag = false := by
      by_contra hf
      have hf' : (fmpz_mat_inv A).flag = true := by simpa using hf
      have hmul := hk.2 hf'
      apply hA
      refine ⟨(fmpz_mat_inv A).den • (fmpz_mat_inv A).B, ?_⟩
      rw [Matrix.mul_smul, hmul, smul_smul]
      rcases (fmpz_is_pm1_iff _).1 hpm with h | h <;> simp [h]
    simp [hpm, hflag]
  · simp [hpm]

/-- C2 (witness): `[[2,0],[0,1]]` with the adjugate kernel. -/
theorem ZZ.inverse_false_of_not_invertible_witness :
    (¬ ∃ B : DMatZZ 2 2, (!![2, 0; 0, 1] : DMatZZ 2 2) * B = 1) ∧
    (ZZ.inverse fmpz_mat_inv_adjugate (!![2, 0; 0, 1] : DMatZZ 2 2)).1 = false := by
  have hA : ¬ ∃ B : DMatZZ 2 2, (!![2, 0; 0, 1] : DMatZZ 2 2) * B = 1 := by
    rintro ⟨B, hB⟩
    have h := congrFun (congrFun hB 0) 0
    simp [Matrix.mul_apply, Fin.sum_univ_two] at h
    omega
  exact ⟨hA, ZZ.inverse_false_of_not_invertible fmpz_mat_inv_adjugate _
    (fmpz_mat_inv_adjugate_spec _) hA⟩

/-! ## C3 -/

/-- C3 (the code at the failing input `A = [[-1]]`): the adjugate kernel meets the contract
at `A`, its denominator `-1` divides `det A = -1`, `inverse` returns true and leaves
`R = [[1]]`, and `mult(A, R)` is `[[-1]]`, which is not the identity. -/
theorem ZZ.inverse_neg_one_not_roundtrip :
    fmpz_mat_inv_spec (zz1 (-1)) (fmpz_mat_inv_adjugate (zz1 (-1))) ∧
    (fmpz_mat_inv_adjugate (zz1 (-1))).den ∣ (zz1 (-1)).det ∧
    (zz1 (-1)).det = -1 ∧
    ZZ.inverse fmpz_mat_inv_adjugate (zz1 (-1)) = (true, zz1 1) ∧
    ZZ.mult (zz1 (-1)) (ZZ.inverse fmpz_mat_inv_adjugate (zz1 (-1))).2 = zz1 (-1) ∧
    ZZ.mult (zz1 (-1)) (ZZ.inverse fmpz_mat_inv_adjugate (zz1 (-1))).2 ≠ 1 :=
  ⟨fmpz_mat_inv_adjugate_spec _, by decide, by decide, by decide, by decide, by decide⟩


/-! ## C4 -/

/-- C4 (the code at the failing input `A = [[1]]`, `B = [[2]]`): `A` has determinant 1 and
`A * [[2]] = B`, but `solveLinear(A, B, true, X, true)` calls the kernel as
`fmpz_mat_solve(X, den, B, A)`, so every kernel meeting its contract at that call yields an
even denominator and the function returns false. -/
theorem ZZ.solveLinear_unimodular_returns_false
    (fmpz_mat_solve : DMatZZ 1 1 → DMatZZ 1 1 → fmpz_mat_solve_result 1 1)
    (hk : fmpz_mat_solve_spec (zz1 2) (zz1 1) (fmpz_mat_solve (zz1 2) (zz1 1))) :
    (zz1 1).det = 1 ∧ zz1 1 * zz1 2 = zz1 2 ∧
    ∃ X, ZZ.solveLinear fmpz_mat_solve (zz1 1) (zz1 2) true true = .ok (false, X) := by
  refine ⟨by decide, by decide, (fmpz_mat_solve (zz1 2) (zz1 1)).X, ?_⟩
  have hflag : (fmpz_mat_solve (zz1 2) (zz1 1)).flag = true := hk.1.2 (by decide)
  have hmul := hk.2 hflag
  have h00 := congrFun (congrFun hmul 0) 0
  simp only [Matrix.mul_apply, Finset.univ_unique, Finset.sum_singleton, Matrix.smul_apply,
    smul_eq_mul, show zz1 2 0 default = 2 from rfl, show zz1 1 0 0 = 1 from rfl] at h00
  have hpm : fmpz_is_pm1 (fmpz_mat_solve (zz1 2) (zz1 1)).den = false := by
    rw [Bool.eq_false_iff, Ne, fmpz_is_pm1_iff]
    omega
  simp [ZZ.solveLinear, ZZ.solveLinear3, hpm, pure, Except.pure]

/-- C4 (witness): the Cramer kernel meets the contract, and with it the call returns
false. -/
theorem ZZ.solveLinear_unimodular_returns_false_witness :
    (zz1 1).det = 1 ∧ zz1 1 * zz1 2 = zz1 2 ∧
    ∃ X, ZZ.solveLinear fmpz_mat_solve_cramer (zz1 1) (zz1 2) true true = .ok (false, X) :=
  ZZ.solveLinear_unimodular_returns_false fmpz_mat_solve_cramer
    (fmpz_mat_solve_cramer_spec _ _)

/-! ## C5 -/

/-- C5 (amended): over `DMatZZ`, `DMatZZpFlint` and `DMatQQFlint`, for all `A` and `B`
(solvable or not) `solveLinear(A, B, true, X, false)` throws the unsupported-operation
error that carries `solveLinear` and returns no value; the generic three-argument
`solveLinear(A, B, X)` is the five-argument call with `right_side = true` and the hint
false, which over a domain without a strategy throws the same error. -/
theorem solveLinear_hint_false_unsupported {p ra ca rb cb rx cx : ℕ} :
    (∀ (k : DMatZZ rb cb → DMatZZ ra ca → fmpz_mat_solve_result rx cx)
        (A : DMatZZ ra ca) (B : DMatZZ rb cb),
      ZZ.solveLinear k A B true false = .error ⟨notImplemented "solveLinear"⟩) ∧
    (∀ (k : DMatZZpFlint p rb cb → DMatZZpFlint p ra ca → nmod_mat_solve_result p rx cx)
        (A : DMatZZpFlint p ra ca) (B : DMatZZpFlint p rb cb),
      ZZpFlint.solveLinear k A B true false = .error ⟨notImplemented "solveLinear"⟩) ∧
    (∀ (A : DMatQQFlint ra ca) (B : DMatQQFlint rb cb) (X : DMatQQFlint rx cx),
      QQFlint.solveLinear A B true X false = .error ⟨notImplemented "solveLinear"⟩) ∧
    (∀ (Mat Res : Type) (five : Mat → Mat → Bool → Mat → Bool → Res) (A B X : Mat),
      solveLinear3 five A B X = five A B true X false) ∧
    (∀ (Mat : Type) (A B X : Mat),
      solveLinear3 solveLinear A B X = .error ⟨notImplemented "solveLinear"⟩) :=
  ⟨fun _ _ _ => rfl, fun _ _ _ => rfl, fun _ _ _ => rfl, fun _ _ _ _ _ _ => rfl,
    fun _ _ _ _ => rfl⟩

/-- C5 (counterexample): over `DMatZZ` the system `[[0]] X = [[1]]` has no solution, yet
`solveLinear([[0]], [[1]], true, X, false)` does not return false: it throws. -/
theorem solveLinear_hint_false_counterexample :
    (¬ ∃ X : DMatZZ 1 1, zz1 0 * X = zz1 1) ∧
    (ZZ.solveLinear fmpz_mat_solve_cramer (zz1 0) (zz1 1) true false :
        Except exc.engine_error (Bool × DMatZZ 1 1)) =
      .error ⟨"'solveLinear' not implemented for this kind of matrix over this ring"⟩ ∧
    ∀ X : DMatZZ 1 1,
      ZZ.solveLinear fmpz_mat_solve_cramer (zz1 0) (zz1 1) true false ≠ .ok (false, X) := by
  refine ⟨?_, rfl, fun X h => ?_⟩
  · rintro ⟨X, hX⟩
    have h := congrFun (congrFun hX 0) 0
    simp [zz1, Matrix.mul_apply] at h
  · simp [ZZ.solveLinear] at h

/-! ## C6 -/

/-- Rank-nullity for an integer matrix. -/
theorem finrank_ker_add_rank {r c : ℕ} (A : DMatZZ r c) :
    Module.finrank ℤ (LinearMap.ker A.mulVecLin) + Matrix.rank A = c := by
  have h := Submodule.finrank_quotient_add_finrank (LinearMap.ker A.mulVecLin)
  rw [A.mulVecLin.quotKerEquivRange.finrank_eq] at h
  simp only [Module.finrank_pi, Fintype.card_fin] at h
  unfold Matrix.rank
  omega

/-- C6 (the code on every input): when `fmpz_mat_nullspace` returns the nullity of `A` and
`fmpz_mat_rank` its rank, `nullSpace(A, true, N)` over `DMatZZ` returns `numColumns(A)`
minus the nullity, which is the rank of `A`; added to `rank(A)` this is twice the rank. -/
theorem ZZ.nullSpace_returns_rank {r c rn cn : ℕ}
    (fmpz_mat_nullspace : DMatZZ r c → mat_nullspace_result ℤ rn cn)
    (fmpz_mat_rank : DMatZZ r c → ℕ) (A : DMatZZ r c) (hc : c < 2 ^ 64)
    (hnull : (fmpz_mat_nullspace A).value
      = (Module.finrank ℤ (LinearMap.ker A.mulVecLin) : ℤ))
    (hrank : fmpz_mat_rank A = Matrix.rank A) :
    ZZ.nullSpace fmpz_mat_nullspace A true
      = .ok (Matrix.rank A, (fmpz_mat_nullspace A).B) ∧
    (ZZ.nullSpace2 fmpz_mat_nullspace A).1 + ZZ.rank fmpz_mat_rank A
      = 2 * Matrix.rank A := by
  have hrn := finrank_ker_add_rank A
  have hsub : size_t_sub_long c (fmpz_mat_nullspace A).value = Matrix.rank A := by
    unfold size_t_sub_long
    rw [hnull]
    have h1 : ((c : ℤ) - (Module.finrank ℤ (LinearMap.ker A.mulVecLin) : ℤ))
        = (Matrix.rank A : ℤ) := by omega
    rw [h1, Int.emod_eq_of_lt (by omega) (by omega)]
    simp
  constructor
  · simp [ZZ.nullSpace, ZZ.nullSpace2, hsub, pure, Except.pure]
  · simp only [ZZ.nullSpace2, ZZ.rank, hsub, hrank]
    omega

/-- C6 (witness, the failing input): for the 1 x 1 identity the nullity is 0 and the rank
is 1; `nullSpace` returns 1, and `1 + 1` is not the number of columns. -/
theorem ZZ.nullSpace_returns_rank_witness :
    ZZ.nullSpace (fun _ => (⟨0, 0⟩ : mat_nullspace_result ℤ 1 1)) (1 : DMatZZ 1 1) true
      = .ok (1, 0) ∧
    (ZZ.nullSpace2 (fun _ => (⟨0, 0⟩ : mat_nullspace_result ℤ 1 1)) (1 : DMatZZ 1 1)).1
      + ZZ.rank (fun _ => 1) (1 : DMatZZ 1 1) ≠ 1 := by
  have hr : Matrix.rank (1 : DMatZZ 1 1) = 1 := by rw [Matrix.rank_one]; rfl
  have hn := finrank_ker_add_rank (1 : DMatZZ 1 1)
  have h := ZZ.nullSpace_returns_rank (fun _ => (⟨0, 0⟩ : mat_nullspace_result ℤ 1 1))
    (fun _ => 1) (1 : DMatZZ 1 1) (by norm_num)
    (by simp only [Int.natCast_eq_zero.2 (by omega : Module.finrank ℤ
      (LinearMap.ker (1 : DMatZZ 1 1).mulVecLin) = 0)]) hr.symm
  rw [hr] at h
  exact ⟨h.1, by rw [h.2]; decide⟩

/-! ## C7 -/

/-- C7 (the code on every input): over `DMatZZpFlint`, `nullSpace(A, true, N)` has not
returned after any number `fuel` of nested calls: each call only calls `nullSpace(A, true,
N)` again and never reaches the two-argument wrapper. -/
theorem ZZpFlint.nullSpace_right_side_never_returns {p r c rn cn : ℕ} (fuel : ℕ)
    (A : DMatZZpFlint p r c) (N : DMatZZpFlint p rn cn) :
    ZZpFlint.nullSpace fuel A true N = none := by
  induction fuel with
  | zero => rfl
  | succ fuel ih => simpa [ZZpFlint.nullSpace] using ih

/-! ## C8 -/

/-- C8 (the code at a failing input over the integers modulo 3): with `C = 0`,
`A = [[0,1],[0,0]]`, `B = [[0,0],[1,0]]`, `addMultipleTo` leaves `C + A * B` and
`subtractMultipleTo` leaves `C - A * B`, but `mult(A, B, P)` writes `P = B * A`, so neither
result is `C + P` or `C - P`. -/
theorem ZZpFlint.addMultipleTo_ne_add_mult :
    ZZpFlint.mult (!![0, 1; 0, 0] : DMatZZpFlint 3 2 2) !![0, 0; 1, 0] = !![0, 0; 0, 1] ∧
    ZZpFlint.addMultipleTo (0 : DMatZZpFlint 3 2 2) !![0, 1; 0, 0] !![0, 0; 1, 0]
      = !![1, 0; 0, 0] ∧
    ZZpFlint.addMultipleTo (0 : DMatZZpFlint 3 2 2) !![0, 1; 0, 0] !![0, 0; 1, 0]
      ≠ 0 + ZZpFlint.mult (!![0, 1; 0, 0] : DMatZZpFlint 3 2 2) !![0, 0; 1, 0] ∧
    ZZpFlint.subtractMultipleTo (0 : DMatZZpFlint 3 2 2) !![0, 1; 0, 0] !![0, 0; 1, 0]
      ≠ 0 - ZZpFlint.mult (!![0, 1; 0, 0] : DMatZZpFlint 3 2 2) !![0, 0; 1, 0] := by
  decide

/-! ## C9 -/

/-- C9 (the code on every input, and at the failing input `A = B = [[1]]`): over
`DMatQQFlint`, `solveLinear(A, B, true, X, true)` returns false and leaves `X` as it was,
also when `A X = B` has a solution, as `[[1]] [[1]] = [[1]]` does. -/
theorem QQFlint.solveLinear_returns_false {ra ca rb cb rx cx : ℕ} (A : DMatQQFlint ra ca)
    (B : DMatQQFlint rb cb) (X : DMatQQFlint rx cx) :
    QQFlint.solveLinear A B true X true = .ok (false, X) ∧
    qq1 1 * qq1 1 = qq1 1 ∧
    QQFlint.solveLinear (qq1 1) (qq1 1) true (qq1 0) true = .ok (false, qq1 0) :=
  ⟨rfl, by simp [qq1], rfl⟩


/-! ## C10 -/

theorem den_dvd_foldr_lcm {α : Type} (f : α → ℕ) (l : List α) (a : α) (ha : a ∈ l) :
    f a ∣ l.foldr (fun j d => Nat.lcm (f j) d) 1 := by
  induction l with
  | nil => cases ha
  | cons b l ih =>
    rcases List.mem_cons.1 ha with h | h
    · subst h
      exact Nat.dvd_lcm_left _ _
    · exact (ih h).trans (Nat.dvd_lcm_right _ _)

theorem foldr_lcm_ne_zero {α : Type} (f : α → ℕ) (l : List α) (hf : ∀ a, f a ≠ 0) :
    l.foldr (fun j d => Nat.lcm (f j) d) 1 ≠ 0 := by
  induction l with
  | nil => simp
  | cons b l ih => exact Nat.lcm_ne_zero (hf b) ih

theorem rowDenominator_ne_zero {r c : ℕ} (A : DMatQQFlint r c) (i : Fin r) :
    rowDenominator A i ≠ 0 :=
  foldr_lcm_ne_zero (fun j => (A i j).den) _ (fun j => (A i j).den_nz)

theorem den_dvd_rowDenominator {r c : ℕ} (A : DMatQQFlint r c) (i : Fin r) (j : Fin c) :
    (A i j).den ∣ rowDenominator A i :=
  den_dvd_foldr_lcm (fun j => (A i j).den) _ j (List.mem_finRange j)

theorem fmpq_mat_get_fmpz_mat_rowwise_spec {r c : ℕ} (A : DMatQQFlint r c) :
    fmpq_mat_rowwise_spec A (fmpq_mat_get_fmpz_mat_rowwise A) := by
  refine ⟨fun i => (rowDenominator A i : ℤ), fun i => ?_, fun i j => ?_⟩
  · show ((rowDenominator A i : ℕ) : ℤ) ≠ 0
    exact_mod_cast rowDenominator_ne_zero A i
  · obtain ⟨k, hk⟩ := den_dvd_rowDenominator A i j
    show (((A i j).num * ((rowDenominator A i / (A i j).den : ℕ) : ℤ) : ℤ) : ℚ)
      = ((rowDenominator A i : ℤ) : ℚ) * A i j
    rw [hk, Nat.mul_div_cancel_left k (A i j).den_pos]
    push_cast
    rw [← Rat.mul_den_eq_num (A i j)]
    ring

theorem card_le_finrank_of_mem {R X κ : Type*} [Ring R] [StrongRankCondition R]
    [AddCommGroup X] [Module R X] [Fintype κ] (N : Submodule R X) [Module.Finite R N]
    (g : κ → X) (hg : LinearIndependent R g) (hmem : ∀ k, g k ∈ N) :
    Fintype.card κ ≤ Module.finrank R N := by
  have hg' : LinearIndependent R (fun k => (⟨g k, hmem k⟩ : N)) :=
    LinearIndependent.of_comp N.subtype (by simpa [Function.comp_def] using hg)
  exact hg'.fintype_card_le_finrank

theorem castVec_apply (r : ℕ) (w : Fin r → ℤ) (i : Fin r) : castVec r w i = (w i : ℚ) := by
  simp [castVec]

theorem castVec_injective (r : ℕ) : Function.Injective (castVec r) := by
  intro a b h
  funext i
  have := congrFun h i
  simpa [castVec_apply] using this

theorem castVec_mulVec {r c : ℕ} (M : DMatZZ r c) (x : Fin c → ℤ) :
    castVec r (M.mulVec x) = (M.map (Int.cast : ℤ → ℚ)).mulVec (castVec c x) := by
  funext i
  simp [castVec_apply, Matrix.mulVec, Matrix.dotProduct]

theorem castVec_col {r c : ℕ} (M : DMatZZ r c) (j : Fin c) :
    castVec r (M.transpose j) = (M.map (Int.cast : ℤ → ℚ)).transpose j := by
  funext i
  simp [castVec_apply]

/-- The rank of an integer matrix over the integers is its rank over the rationals. -/
theorem rank_map_intCast {r c : ℕ} (M : DMatZZ r c) :
    (M.map (Int.cast : ℤ → ℚ)).rank = M.rank := by
  apply le_antisymm
  · rw [Matrix.rank_eq_finrank_span_cols, Matrix.rank_eq_finrank_span_cols]
    obtain ⟨b, hbsub, hbspan, hbli⟩ :=
      exists_linearIndependent ℚ (Set.range (M.map (Int.cast : ℤ → ℚ)).transpose)
    have hfin : b.Finite := (Set.finite_range _).subset hbsub
    haveI : Fintype b := hfin.fintype
    rw [← hbspan, finrank_span_set_eq_card hbli, Set.toFinset_card]
    choose j hj using fun x : b => hbsub x.2
    refine card_le_finrank_of_mem _ (fun x : b => M.transpose (j x)) ?_ ?_
    · apply LinearIndependent.of_comp (castVec r)
      have hz : LinearIndependent ℤ ((↑) : b → Fin r → ℚ) :=
        (LinearIndependent.iff_fractionRing ℤ ℚ).2 hbli
      convert hz using 1
      funext x
      simp only [Function.comp_apply]
      rw [castVec_col, hj]
    · intro x
      exact Submodule.subset_span ⟨j x, rfl⟩
  · rw [Matrix.rank, Matrix.rank]
    obtain ⟨f, hf⟩ := exists_linearIndependent_of_le_finrank
      (le_refl (Module.finrank ℤ (LinearMap.range M.mulVecLin)))
    have h := card_le_finrank_of_mem (LinearMap.range (M.map (Int.cast : ℤ → ℚ)).mulVecLin)
      (fun k => castVec r (f k : Fin r → ℤ)) ?_ ?_
    · simpa using h
    · apply (LinearIndependent.iff_fractionRing ℤ ℚ).1
      have := hf.map' ((castVec r).comp (LinearMap.range M.mulVecLin).subtype) ?_
      · simpa [Function.comp_def] using this
      · rw [LinearMap.ker_eq_bot]
        exact (castVec_injective r).comp (Submodule.injective_subtype _)
    · intro k
      obtain ⟨x, hx⟩ := (f k).2
      refine ⟨castVec c x, ?_⟩
      show (M.map (Int.cast : ℤ → ℚ)).mulVec (castVec c x) = castVec r (f k : Fin r → ℤ)
      rw [← hx, Matrix.mulVecLin_apply, castVec_mulVec]

/-- Clearing denominators row by row does not change the rank. -/
theorem rank_of_rowwise_spec {r c : ℕ} (A : DMatQQFlint r c) (m1 : DMatZZ r c)
    (h : fmpq_mat_rowwise_spec A m1) : Matrix.rank m1 = Matrix.rank A := by
  obtain ⟨d, hd, hm⟩ := h
  have hmap : m1.map (Int.cast : ℤ → ℚ) = Matrix.diagonal (fun i => (d i : ℚ)) * A := by
    ext i j
    simp [Matrix.diagonal_mul, hm i j]
  rw [← rank_map_intCast, hmap]
  apply Matrix.rank_mul_eq_right_of_isUnit_det
  rw [Matrix.det_diagonal, isUnit_iff_ne_zero, Finset.prod_ne_zero_iff]
  intro i _
  exact_mod_cast hd i

/-- C10: over `DMatQQFlint`, when the row-wise denominator clearing meets its contract at
`A` and the integer kernel returns the rank of the cleared matrix, that matrix has the same
rank as `A` and `rank(A)` returns the rank of `A` over the rationals. -/
theorem QQFlint.rank_eq_true_rank {r c : ℕ}
    (rowwise : DMatQQFlint r c → DMatZZ r c) (fmpz_mat_rank : DMatZZ r c → ℕ)
    (A : DMatQQFlint r c) (hclear : fmpq_mat_rowwise_spec A (rowwise A))
    (hrank : fmpz_mat_rank (rowwise A) = Matrix.rank (rowwise A)) :
    Matrix.rank (rowwise A) = Matrix.rank A ∧
    QQFlint.rank rowwise fmpz_mat_rank A = fmpz_mat_rank (rowwise A) ∧
    QQFlint.rank rowwise fmpz_mat_rank A = Matrix.rank A := by
  have h := rank_of_rowwise_spec A (rowwise A) hclear
  exact ⟨h, rfl, by rw [← h, ← hrank]; rfl⟩

/-- C10 (witness): `A = [[1/2, 0], [0, 1/3]]` is cleared to the identity, of rank 2. -/
theorem QQFlint.rank_eq_true_rank_witness :
    fmpq_mat_get_fmpz_mat_rowwise (!![1 / 2, 0; 0, 1 / 3] : DMatQQFlint 2 2) = 1 ∧
    QQFlint.rank fmpq_mat_get_fmpz_mat_rowwise (fun _ => 2)
      (!![1 / 2, 0; 0, 1 / 3] : DMatQQFlint 2 2) = 2 ∧
    Matrix.rank (!![1 / 2, 0; 0, 1 / 3] : DMatQQFlint 2 2) = 2 := by
  have hm : fmpq_mat_get_fmpz_mat_rowwise (!![1 / 2, 0; 0, 1 / 3] : DMatQQFlint 2 2) = 1 := by
    ext i j
    fin_cases i <;> fin_cases j <;>
      norm_num [fmpq_mat_get_fmpz_mat_rowwise, rowDenominator, List.finRange]
  have h := QQFlint.rank_eq_true_rank fmpq_mat_get_fmpz_mat_rowwise (fun _ => 2)
    (!![1 / 2, 0; 0, 1 / 3] : DMatQQFlint 2 2) (fmpq_mat_get_fmpz_mat_rowwise_spec _)
    (by rw [hm, Matrix.rank_one]; rfl)
  exact ⟨hm, rfl, h.2.2.symm.trans rfl⟩

/-! ## C11 -/

/-- C11 (amended): over `DMatZZ`, `DMatZZpFlint` and `DMatQQFlint`, for every matrix `A`
of every shape `r x c`, square or not, `determinant(A, d)` makes no dimension check and
raises no error: it returns normally with `d` set to what the kernel computes on `A`. -/
theorem determinant_no_dimension_check {p r c : ℕ} :
    (∀ (fmpz_mat_det : DMatZZ r c → ℤ) (A : DMatZZ r c),
      ZZ.determinant fmpz_mat_det A = .ok (fmpz_mat_det A) ∧
      thrown (ZZ.determinant fmpz_mat_det A) = none) ∧
    (∀ (nmod_mat_det : DMatZZpFlint p r c → ZMod p) (A : DMatZZpFlint p r c),
      ZZpFlint.determinant nmod_mat_det A = .ok (nmod_mat_det A) ∧
      thrown (ZZpFlint.determinant nmod_mat_det A) = none) ∧
    (∀ (fmpq_mat_det : DMatQQFlint r c → ℚ) (A : DMatQQFlint r c),
      QQFlint.determinant fmpq_mat_det A = .ok (fmpq_mat_det A) ∧
      thrown (QQFlint.determinant fmpq_mat_det A) = none) :=
  ⟨fun _ _ => ⟨rfl, rfl⟩, fun _ _ => ⟨rfl, rfl⟩, fun _ _ => ⟨rfl, rfl⟩⟩

/-- C11 (counterexample): over `DMatQQFlint`, for the 1 x 2 matrix `[[1, 2]]` and a kernel
that returns the entry in row 0, column 0, `determinant(A, d)` returns normally with
`d = 1`; no error is raised although `A` is not square. -/
theorem determinant_non_square_counterexample :
    (1 : ℕ) ≠ 2 ∧
    QQFlint.determinant (fun A : DMatQQFlint 1 2 => A 0 0) !![1, 2] = .ok 1 ∧
    thrown (QQFlint.determinant (fun A : DMatQQFlint 1 2 => A 0 0) !![1, 2]) = none :=
  ⟨by decide, rfl, rfl⟩

/-! ## C12 -/

/-- C12: over `DMatRRR` and over `DMatCCC`, for all kernels and all arguments, `SVD` with
a strategy other than 1 returns what `Lapack::SVD` returns on the same arguments, and with
strategy 1 what `Lapack::SVD_divide_conquer` returns; two strategies other than 1 give the
same result; and with kernels told apart by their flag, the divide-and-conquer answer
appears exactly when the strategy is 1. -/
theorem SVD_strategy_dispatch {DMatRRR DMatCCC : Type}
    (svdR dcR : DMatRRR → DMatRRR → DMatRRR → DMatRRR → Bool × DMatRRR × DMatRRR × DMatRRR)
    (svdC dcC : DMatCCC → DMatRRR → DMatCCC → DMatCCC → Bool × DMatRRR × DMatCCC × DMatCCC)
    (A Sigma U Vt : DMatRRR) (A' U' Vt' : DMatCCC) (strategy strategy' : ℤ) :
    (strategy ≠ 1 → RRR.SVD svdR dcR A Sigma U Vt strategy = svdR A Sigma U Vt) ∧
    (strategy ≠ 1 → CCC.SVD svdC dcC A' Sigma U' Vt' strategy = svdC A' Sigma U' Vt') ∧
    RRR.SVD svdR dcR A Sigma U Vt 1 = dcR A Sigma U Vt ∧
    CCC.SVD svdC dcC A' Sigma U' Vt' 1 = dcC A' Sigma U' Vt' ∧
    (strategy ≠ 1 → strategy' ≠ 1 →
      RRR.SVD svdR dcR A Sigma U Vt strategy = RRR.SVD svdR dcR A Sigma U Vt strategy' ∧
      CCC.SVD svdC dcC A' Sigma U' Vt' strategy
        = CCC.SVD svdC dcC A' Sigma U' Vt' strategy') ∧
    ((RRR.SVD (fun _ _ _ _ => (false, (), (), ())) (fun _ _ _ _ => (true, (), (), ()))
        () () () () strategy).1 = true ↔ strategy = 1) ∧
    ((CCC.SVD (fun _ _ _ _ => (false, (), (), ())) (fun _ _ _ _ => (true, (), (), ()))
        () () () () strategy).1 = true ↔ strategy = 1) := by
  have hR : ∀ s : ℤ, s ≠ 1 → RRR.SVD svdR dcR A Sigma U Vt s = svdR A Sigma U Vt := by
    intro s hs
    simp [RRR.SVD, hs]
  have hC : ∀ s : ℤ, s ≠ 1 →
      CCC.SVD svdC dcC A' Sigma U' Vt' s = svdC A' Sigma U' Vt' := by
    intro s hs
    simp [CCC.SVD, hs]
  refine ⟨hR strategy, hC strategy, by simp [RRR.SVD], by simp [CCC.SVD], ?_, ?_, ?_⟩
  · intro h h'
    exact ⟨(hR _ h).trans (hR _ h').symm, (hC _ h).trans (hC _ h').symm⟩
  · by_cases h : strategy = 1 <;> simp [RRR.SVD, h]
  · by_cases h : strategy = 1 <;> simp [CCC.SVD, h]

/-! ## C13 -/

/-- C13 (the code on every input, and at the failing input `A = [[0,1],[0,0]]`,
`B = [[0,0],[1,0]]`): `mult(A, B, P)` over `DMatZZ` and over `DMatQQFlint` hands the
operands to the kernel in the order given, `A` first, so `P = k(A, B)`, which at this input
is not `k(B, A)`; only the `DMatZZpFlint` strategy hands them over switched. -/
theorem mult_operand_order :
    (∀ (r k c : ℕ) (A : DMatZZ r k) (B : DMatZZ k c), ZZ.mult A B = fmpz_mat_mul A B) ∧
    (∀ (r k c : ℕ) (A : DMatQQFlint r k) (B : DMatQQFlint k c),
      QQFlint.mult A B = fmpq_mat_mul A B) ∧
    (∀ (p r k c : ℕ) (A : DMatZZpFlint p k c) (B : DMatZZpFlint p r k),
      ZZpFlint.mult A B = nmod_mat_mul B A) ∧
    ZZ.mult (!![0, 1; 0, 0] : DMatZZ 2 2) !![0, 0; 1, 0] = !![1, 0; 0, 0] ∧
    fmpz_mat_mul (!![0, 0; 1, 0] : DMatZZ 2 2) !![0, 1; 0, 0] = !![0, 0; 0, 1] ∧
    ZZ.mult (!![0, 1; 0, 0] : DMatZZ 2 2) !![0, 0; 1, 0]
      ≠ fmpz_mat_mul (!![0, 0; 1, 0] : DMatZZ 2 2) !![0, 1; 0, 0] ∧
    QQFlint.mult (!![0, 1; 0, 0] : DMatQQFlint 2 2) !![0, 0; 1, 0]
      ≠ fmpq_mat_mul (!![0, 0; 1, 0] : DMatQQFlint 2 2) !![0, 1; 0, 0] := by
  refine ⟨fun _ _ _ _ _ => rfl, fun _ _ _ _ _ => rfl, fun _ _ _ _ _ _ => rfl,
    by decide, by decide, by decide, ?_⟩
  intro h
  have h00 := congrFun (congrFun h 0) 0
  simp [QQFlint.mult, fmpq_mat_mul, Matrix.mul_apply, Fin.sum_univ_two] at h00

/-! ## C14 -/

/-- C14: over `DMatZZ`, `DMatZZpFlint` and `DMatQQFlint`, for all `C` (`r x c`), `A`
(`r x k`) and `B` (`k x c`), `addMultipleTo(C, A, B)` followed by
`subtractMultipleTo(C, A, B)` leaves `C` with its original value and `A` and `B` as they
were. -/
theorem addMultipleTo_subtractMultipleTo_roundtrip {p r k c : ℕ} :
    (∀ s : FusedOperands ℤ r k c,
      ZZ.subtractMultipleTo_call (ZZ.addMultipleTo_call s) = s ∧
      ZZ.subtractMultipleTo (ZZ.addMultipleTo s.C s.A s.B) s.A s.B = s.C) ∧
    (∀ s : FusedOperands (ZMod p) r k c,
      ZZpFlint.subtractMultipleTo_call (ZZpFlint.addMultipleTo_call s) = s ∧
      ZZpFlint.subtractMultipleTo (ZZpFlint.addMultipleTo s.C s.A s.B) s.A s.B = s.C) ∧
    (∀ s : FusedOperands ℚ r k c,
      QQFlint.subtractMultipleTo_call (QQFlint.addMultipleTo_call s) = s ∧
      QQFlint.subtractMultipleTo (QQFlint.addMultipleTo s.C s.A s.B) s.A s.B = s.C) := by
  refine ⟨fun s => ?_, fun s => ?_, fun s => ?_⟩
  · have h : ZZ.subtractMultipleTo (ZZ.addMultipleTo s.C s.A s.B) s.A s.B = s.C := by
      simp [ZZ.subtractMultipleTo, ZZ.addMultipleTo, fmpz_mat_sub, fmpz_mat_add]
    refine ⟨?_, h⟩
    cases s
    simpa [ZZ.subtractMultipleTo_call, ZZ.addMultipleTo_call] using h
  · have h : ZZpFlint.subtractMultipleTo (ZZpFlint.addMultipleTo s.C s.A s.B) s.A s.B
        = s.C := by
      simp [ZZpFlint.subtractMultipleTo, ZZpFlint.addMultipleTo, nmod_mat_sub, nmod_mat_add]
    refine ⟨?_, h⟩
    cases s
    simpa [ZZpFlint.subtractMultipleTo_call, ZZpFlint.addMultipleTo_call] using h
  · have h : QQFlint.subtractMultipleTo (QQFlint.addMultipleTo s.C s.A s.B) s.A s.B
        = s.C := by
      simp [QQFlint.subtractMultipleTo, QQFlint.addMultipleTo, fmpq_mat_sub, fmpq_mat_add]
    refine ⟨?_, h⟩
    cases s
    simpa [QQFlint.subtractMultipleTo_call, QQFlint.addMultipleTo_call] using h

/-! ## Further properties of the `DMatZZ` strategies -/

/-- X1: over `DMatZZ`, for a square `A` of determinant 1 or -1 and a kernel `fmpz_mat_inv`
that meets its contract at `A` with a denominator dividing `det A`, `inverse(A, R)` returns
true, the denominator is 1 or -1, and `mult(A, R)` is the denominator times the identity. -/
theorem ZZ.inverse_unimodular {n : ℕ}
    (fmpz_mat_inv : DMatZZ n n → fmpz_mat_inv_result n n) (A : DMatZZ n n)
    (hk : fmpz_mat_inv_spec A (fmpz_mat_inv A)) (hden : (fmpz_mat_inv A).den ∣ A.det)
    (hA : A.det = 1 ∨ A.det = -1) :
    (ZZ.inverse fmpz_mat_inv A).1 = true ∧
    ((fmpz_mat_inv A).den = 1 ∨ (fmpz_mat_inv A).den = -1) ∧
    ZZ.mult A (ZZ.inverse fmpz_mat_inv A).2 = (fmpz_mat_inv A).den • (1 : DMatZZ n n) := by
  have hdet : A.det ≠ 0 := by rcases hA with h | h <;> rw [h] <;> decide
  have hflag : (fmpz_mat_inv A).flag = true := hk.1.2 hdet
  have hunit : IsUnit (fmpz_mat_inv A).den := by
    apply isUnit_of_dvd_unit hden
    rcases hA with h | h <;> rw [h] <;> simp
  have hpm : (fmpz_mat_inv A).den = 1 ∨ (fmpz_mat_inv A).den = -1 := Int.isUnit_iff.1 hunit
  refine ⟨?_, hpm, hk.2 hflag⟩
  simp [ZZ.inverse, (fmpz_is_pm1_iff _).2 hpm, hflag]

/-- X1 (witness): `A = [[-1]]` with the adjugate kernel. -/
theorem ZZ.inverse_unimodular_witness :
    (ZZ.inverse fmpz_mat_inv_adjugate (zz1 (-1))).1 = true ∧
    ((fmpz_mat_inv_adjugate (zz1 (-1))).den = 1 ∨ (fmpz_mat_inv_adjugate (zz1 (-1))).den = -1) ∧
    ZZ.mult (zz1 (-1)) (ZZ.inverse fmpz_mat_inv_adjugate (zz1 (-1))).2
      = (fmpz_mat_inv_adjugate (zz1 (-1))).den • (1 : DMatZZ 1 1) :=
  ZZ.inverse_unimodular fmpz_mat_inv_adjugate (zz1 (-1)) (fmpz_mat_inv_adjugate_spec _)
    (by decide) (by decide)

/-- X2: over `DMatZZ`, `nullSpace(A, true, N)` returns what one call of the two-argument
`nullSpace(A, N)` returns, and `nullSpace(A, false, N)` throws the unsupported-operation
error that carries `nullSpace`. -/
theorem ZZ.nullSpace_delegates_once {r c rn cn : ℕ}
    (fmpz_mat_nullspace : DMatZZ r c → mat_nullspace_result ℤ rn cn) (A : DMatZZ r c) :
    ZZ.nullSpace fmpz_mat_nullspace A true = .ok (ZZ.nullSpace2 fmpz_mat_nullspace A) ∧
    ZZ.nullSpace fmpz_mat_nullspace A false = .error ⟨notImplemented "nullSpace"⟩ :=
  ⟨rfl, rfl⟩

end MatrixOppies
